import Mathlib

/-!
Verification of the checkpoint-timing and results-computation engine of the
race-timing application (src/app.py), against its natural-language
specification.  The Python functions are shallowly embedded as Lean
definitions: pandas data frames become lists of structures, datetimes become
rationals (seconds), pandas parse failures become `Option.none`, and code
paths that raise a Python exception are modelled with `Except.error`.
-/

set_option maxHeartbeats 1000000

/-- A row of `athletes.csv` as loaded by `load_athletes_data` in src/app.py:
columns `athlete_id, department, name, gender, phone, username, password`,
all read as strings. -/
structure Athlete where
  athlete_id : String
  department : String
  name : String
  gender : String
  phone : String
  username : String
  password : String
deriving DecidableEq, Repr

/-- A row of `timing_records.csv` as loaded by `load_records_data` in
src/app.py: columns `athlete_id, checkpoint_type, timestamp`.  The timestamp
column is parsed with `pd.to_datetime(..., errors := coerce)` by the
aggregator, so it is embedded as `Option Rat`: `none` is a value whose
parse failed (NaT), `some t` is a valid instant, measured in seconds. -/
structure TimingRecord where
  athlete_id : String
  checkpoint_type : String
  timestamp : Option ℚ
deriving DecidableEq, Repr

/-- Outcome of one submission of the timing-scanner form in
`display_timing_scanner` (src/app.py lines 310-357), in the order the code
checks them: empty input, failed credential lookup, duplicate scan, success. -/
inductive ScanOutcome where
  | missingInput : ScanOutcome
  | authFailed : ScanOutcome
  | duplicate (name : String) : ScanOutcome
  | success (athlete_id name : String) (t : ℚ) : ScanOutcome
deriving DecidableEq, Repr

/-- The credential lookup of src/app.py lines 318-321: the rows of the
athletes table whose `username` and `password` columns equal the submitted
values (the code then uses `.iloc[0]`, the first such row). -/
def verifiedAthletes (df_athletes : List Athlete) (username password : String) :
    List Athlete :=
  df_athletes.filter (fun a => a.username == username && a.password == password)

/-- The duplicate check of src/app.py lines 333-336: the stored records for
one (athlete_id, checkpoint_type) pair. -/
def pairRecords (df_records : List TimingRecord) (athlete_id checkpoint_type : String) :
    List TimingRecord :=
  df_records.filter
    (fun r => r.athlete_id == athlete_id && r.checkpoint_type == checkpoint_type)

/-- The submission handler of `display_timing_scanner` (src/app.py lines
310-357): reject empty input, look the credentials up in the athletes table,
reject an unknown (username, password) pair, report a duplicate if a record
for the same (athlete_id, checkpoint_type) pair exists, otherwise append one
new record timestamped `now`.  Returns the outcome together with the records
table as left on disk. -/
def display_timing_scanner (df_athletes : List Athlete)
    (df_records : List TimingRecord) (checkpoint_type username password : String)
    (now : ℚ) : ScanOutcome × List TimingRecord :=
  if username = "" ∨ password = "" then
    (ScanOutcome.missingInput, df_records)
  else
    match verifiedAthletes df_athletes username password with
    | [] => (ScanOutcome.authFailed, df_records)
    | a :: _ =>
      if pairRecords df_records a.athlete_id checkpoint_type = [] then
        (ScanOutcome.success a.athlete_id a.name now,
          df_records ++ [⟨a.athlete_id, checkpoint_type, some now⟩])
      else
        (ScanOutcome.duplicate a.name, df_records)

/-- C1: idempotent recording.  With valid credentials resolving to athlete
`a` and no stored record for the pair (a.athlete_id, c), a first submission
at `t1` succeeds and appends exactly one record carrying timestamp `t1`; any
later submission at `t2 > t1` for the same pair reports a duplicate and
leaves the store unchanged, so the stored timestamp remains `t1`.  Moreover
one submission never pushes the number of stored events for any
(participant, checkpoint) pair above `max previous 1`, so the store never
comes to hold more than one event per pair through this entry point. -/
theorem scanner_record_idempotent :
    (∀ (athletes : List Athlete) (records : List TimingRecord)
        (c u p : String) (a : Athlete) (t1 : ℚ),
      u ≠ "" → p ≠ "" →
      (verifiedAthletes athletes u p).head? = some a →
      pairRecords records a.athlete_id c = [] →
      display_timing_scanner athletes records c u p t1 =
        (ScanOutcome.success a.athlete_id a.name t1,
          records ++ [⟨a.athlete_id, c, some t1⟩]) ∧
      (∀ t2 : ℚ, t1 < t2 →
        display_timing_scanner athletes (records ++ [⟨a.athlete_id, c, some t1⟩])
            c u p t2 =
          (ScanOutcome.duplicate a.name,
            records ++ [⟨a.athlete_id, c, some t1⟩]))) ∧
    (∀ (athletes : List Athlete) (records : List TimingRecord)
        (c u p : String) (t : ℚ) (pid k : String),
      (pairRecords (display_timing_scanner athletes records c u p t).2 pid k).length ≤
        max (pairRecords records pid k).length 1) := by
  constructor
  · intro athletes records c u p a t1 hu hp hhead hpair
    obtain ⟨tl, hva⟩ : ∃ tl, verifiedAthletes athletes u p = a :: tl := by
      cases hv : verifiedAthletes athletes u p with
      | nil => rw [hv] at hhead; simp at hhead
      | cons x tl =>
        rw [hv] at hhead
        simp only [List.head?_cons, Option.some.injEq] at hhead
        exact ⟨tl, by rw [hhead]⟩
    have hnotempty : ¬(u = "" ∨ p = "") := by
      rintro (h | h) <;> [exact hu h; exact hp h]
    constructor
    · simp [display_timing_scanner, if_neg hnotempty, hva, hpair]
    · intro t2 _
      have hsplit :
          pairRecords (records ++ [⟨a.athlete_id, c, some t1⟩]) a.athlete_id c =
            pairRecords records a.athlete_id c ++ [⟨a.athlete_id, c, some t1⟩] := by
        simp [pairRecords, List.filter_append]
      simp only [display_timing_scanner, if_neg hnotempty, hva, hsplit, hpair,
        List.nil_append]
      simp
  · intro athletes records c u p t pid k
    by_cases hempty : u = "" ∨ p = ""
    · simp only [display_timing_scanner, if_pos hempty]
      exact Nat.le_max_left _ _
    · cases hva : verifiedAthletes athletes u p with
      | nil =>
        simp only [display_timing_scanner, if_neg hempty, hva]
        exact Nat.le_max_left _ _
      | cons a tl =>
        by_cases hpair : pairRecords records a.athlete_id c = []
        · simp only [display_timing_scanner, if_neg hempty, hva, if_pos hpair]
          have hsplit :
              pairRecords (records ++ [⟨a.athlete_id, c, some t⟩]) pid k =
                pairRecords records pid k ++
                  List.filter
                    (fun r : TimingRecord =>
                      r.athlete_id == pid && r.checkpoint_type == k)
                    [⟨a.athlete_id, c, some t⟩] := by
            simp [pairRecords, List.filter_append]
          rw [hsplit, List.length_append]
          by_cases hmatches :
              ((⟨a.athlete_id, c, some t⟩ : TimingRecord).athlete_id == pid &&
                (⟨a.athlete_id, c, some t⟩ : TimingRecord).checkpoint_type == k) = true
          · have hpid : pid = a.athlete_id := by
              simp only [Bool.and_eq_true, beq_iff_eq] at hmatches
              exact hmatches.1.symm
            have hk : k = c := by
              simp only [Bool.and_eq_true, beq_iff_eq] at hmatches
              exact hmatches.2.symm
            subst hpid
            subst hk
            rw [hpair]
            simp [hmatches]
          · have hfalse :
                ((⟨a.athlete_id, c, some t⟩ : TimingRecord).athlete_id == pid &&
                  (⟨a.athlete_id, c, some t⟩ : TimingRecord).checkpoint_type == k) = false :=
              Bool.eq_false_iff.mpr hmatches
            have hnil : List.filter
                (fun r : TimingRecord => r.athlete_id == pid && r.checkpoint_type == k)
                [⟨a.athlete_id, c, some t⟩] = [] := by
              simp [List.filter, hfalse]
            rw [hnil]
            simp

        · simp only [display_timing_scanner, if_neg hempty, hva, if_neg hpair]
          exact Nat.le_max_left _ _

/-- Witness for C1 on concrete data: one registered athlete, empty store;
the first START submission at time 5 succeeds and stores 5, a second one at
time 6 is reported as a duplicate and leaves the single stored record with
timestamp 5. -/
theorem scanner_record_idempotent_witness :
    display_timing_scanner
        [⟨"1001", "d", "n", "g", "p", "user", "pw"⟩] [] "START" "user" "pw" 5 =
      (ScanOutcome.success "1001" "n" 5, [⟨"1001", "START", some 5⟩]) ∧
    display_timing_scanner
        [⟨"1001", "d", "n", "g", "p", "user", "pw"⟩]
        [⟨"1001", "START", some 5⟩] "START" "user" "pw" 6 =
      (ScanOutcome.duplicate "n", [⟨"1001", "START", some 5⟩]) := by
  have h := scanner_record_idempotent.1
    [⟨"1001", "d", "n", "g", "p", "user", "pw"⟩] [] "START" "user" "pw"
    ⟨"1001", "d", "n", "g", "p", "user", "pw"⟩ 5
    (by decide) (by decide) (by decide) (by decide)
  exact ⟨h.1, by simpa using h.2 6 (by decide)⟩

/-- C8: unknown participant rejection.  When the submitted credentials match
no row of the athletes table, the scanner rejects the submission before any
duplicate check or write: for every state of the records store the outcome is
the authentication failure and the store is returned unchanged. -/
theorem scanner_unknown_rejected_store_unchanged :
    ∀ (athletes : List Athlete) (records : List TimingRecord)
      (c u p : String) (now : ℚ),
      u ≠ "" → p ≠ "" →
      verifiedAthletes athletes u p = [] →
      display_timing_scanner athletes records c u p now =
        (ScanOutcome.authFailed, records) := by
  intro athletes records c u p now hu hp hva
  have hnotempty : ¬(u = "" ∨ p = "") := by
    rintro (h | h) <;> [exact hu h; exact hp h]
  simp only [display_timing_scanner, if_neg hnotempty, hva]

/-- Witness for C8 on concrete data: wrong password, nonempty store with a
would-be duplicate; the outcome is the rejection and the store is untouched. -/
theorem scanner_unknown_rejected_store_unchanged_witness :
    display_timing_scanner
        [⟨"1001", "d", "n", "g", "p", "user", "pw"⟩]
        [⟨"1001", "START", some 5⟩] "START" "user" "wrong" 9 =
      (ScanOutcome.authFailed, [⟨"1001", "START", some 5⟩]) :=
  scanner_unknown_rejected_store_unchanged
    [⟨"1001", "d", "n", "g", "p", "user", "pw"⟩]
    [⟨"1001", "START", some 5⟩] "START" "user" "wrong" 9
    (by decide) (by decide) (by decide)

/-- The surviving events of `calculate_net_time` (src/app.py lines 130-132):
records whose timestamp parsed (`errors := coerce` followed by
`dropna(subset := timestamp)` drops the rest), flattened to
(athlete_id, checkpoint_type, timestamp) triples. -/
def droppedRecords (df_records : List TimingRecord) : List (String × String × ℚ) :=
  df_records.filterMap
    (fun r => r.timestamp.map (fun t => (r.athlete_id, r.checkpoint_type, t)))

/-- The grouped minimum of src/app.py line 134: the earliest surviving
timestamp for one (athlete_id, checkpoint_type) pair, `none` when the pair
has no surviving event (an empty cell of the pivot of line 135). -/
def minTime (dropped : List (String × String × ℚ)) (athlete_id checkpoint_type : String) :
    Option ℚ :=
  ((dropped.filter (fun e => e.1 == athlete_id && e.2.1 == checkpoint_type)).map
    (fun e => e.2.2)).min?

/-- The index of the pivot of src/app.py line 135: the athlete ids that have
at least one surviving event. -/
def pivotAthletes (dropped : List (String × String × ℚ)) : List String :=
  (dropped.map (fun e => e.1)).dedup

/-- One row of the result of `calculate_net_time` (src/app.py line 151):
the pivoted checkpoint times of one athlete together with the computed
`total_time_sec`, `segment1_sec` and `segment2_sec` columns. -/
structure TimingResult where
  athlete_id : String
  START : ℚ
  MID : Option ℚ
  FINISH : ℚ
  total_time_sec : ℚ
  segment1_sec : Option ℚ
  segment2_sec : Option ℚ
deriving DecidableEq, Repr

/-- The MID validity test of src/app.py lines 145-146: the MID cell is
filled and lies strictly between START and FINISH. -/
def validMid (s f : ℚ) : Option ℚ → Bool
  | none => false
  | some m => decide (s < m) && decide (m < f)

/-- One row of the filtered pivot (src/app.py lines 137-149): requires both
a START and a FINISH cell, keeps the row only when FINISH is strictly later
than START, and fills the segment columns exactly when the MID cell is
strictly between them. -/
def athleteRow (dropped : List (String × String × ℚ)) (a : String) :
    Option TimingResult :=
  match minTime dropped a "START", minTime dropped a "FINISH" with
  | some s, some f =>
    if s < f then
      let m := minTime dropped a "MID"
      some { athlete_id := a, START := s, MID := m, FINISH := f,
             total_time_sec := f - s,
             segment1_sec := if validMid s f m then m.map (fun mv => mv - s) else none,
             segment2_sec := if validMid s f m then m.map (fun mv => f - mv) else none }
    else none
  | _, _ => none

/-- `calculate_net_time` of src/app.py lines 125-151.  The pivot of line 135
only has the checkpoint-type columns that occur among the surviving events,
so line 137 (`dropna` with subset START, FINISH) raises a pandas `KeyError`
when no surviving event has type START or none has type FINISH, and line 145
(`df_results[MID]`) raises a `KeyError` when no surviving event has type
MID; both exception paths are embedded as `Except.error`. -/
def calculate_net_time (df_records : List TimingRecord) :
    Except String (List TimingResult) :=
  if df_records = [] then Except.ok []
  else
    let dropped := droppedRecords df_records
    let kinds := dropped.map (fun e => e.2.1)
    if "START" ∈ kinds ∧ "FINISH" ∈ kinds then
      if "MID" ∈ kinds then
        Except.ok ((pivotAthletes dropped).filterMap (athleteRow dropped))
      else Except.error "KeyError: MID"
    else Except.error "KeyError: START or FINISH"

instance instDecidableEqExcept {e a : Type _} [DecidableEq e] [DecidableEq a] :
    DecidableEq (Except e a)
  | Except.ok x, Except.ok y =>
    if h : x = y then isTrue (by rw [h]) else isFalse (fun hc => h (Except.ok.inj hc))
  | Except.error x, Except.error y =>
    if h : x = y then isTrue (by rw [h]) else isFalse (fun hc => h (Except.error.inj hc))
  | Except.ok _, Except.error _ => isFalse Except.noConfusion
  | Except.error _, Except.ok _ => isFalse Except.noConfusion

theorem min?_le_of_mem {l : List ℚ} {m x : ℚ} (hm : l.min? = some m) (hx : x ∈ l) :
    m ≤ x := by
  haveI : Std.Antisymm (fun a b : ℚ => a ≤ b) := ⟨fun h h2 => le_antisymm h h2⟩
  exact ((List.min?_eq_some_iff (fun _ => le_refl _) min_choice
    (fun _ _ _ => le_min_iff)).1 hm).2 x hx

theorem mem_minTime_list {dropped : List (String × String × ℚ)} {a k : String}
    {t : ℚ} (h : (a, k, t) ∈ dropped) :
    t ∈ (dropped.filter (fun e => e.1 == a && e.2.1 == k)).map (fun e => e.2.2) := by
  have hf : (a, k, t) ∈ dropped.filter (fun e => e.1 == a && e.2.1 == k) :=
    List.mem_filter.mpr ⟨h, by simp⟩
  exact List.mem_map.mpr ⟨(a, k, t), hf, rfl⟩

theorem minTime_le {dropped : List (String × String × ℚ)} {a k : String}
    {m t : ℚ} (hm : minTime dropped a k = some m) (h : (a, k, t) ∈ dropped) :
    m ≤ t :=
  min?_le_of_mem hm (mem_minTime_list h)

/-- C2: result exclusion is not always silent.  On the event set holding a
single participant B with only a START event, the code does not silently
exclude B: the pivot of line 135 has no FINISH column at all, so the
`dropna(subset := [START, FINISH])` of src/app.py line 137 raises a pandas
`KeyError` and no result is produced.  The second conjunct shows the true
half of the claim: when every checkpoint-type column exists, a participant
whose FINISH equals START is silently excluded while a valid participant is
kept with total FINISH minus START. -/
theorem calculate_net_time_exclusion_raises :
    calculate_net_time [⟨"B", "START", some 0⟩] =
      Except.error "KeyError: START or FINISH" ∧
    calculate_net_time
        [⟨"A", "START", some 0⟩, ⟨"A", "MID", some 10⟩, ⟨"A", "FINISH", some 20⟩,
         ⟨"B", "START", some 5⟩, ⟨"B", "FINISH", some 5⟩] =
      Except.ok [⟨"A", 0, some 10, 20, 20, some 10, some 10⟩] := by
  simp [calculate_net_time, droppedRecords, minTime, pivotAthletes, athleteRow,
    validMid, min_def, List.dedup, List.pwFilter, List.min?, List.filter]
  norm_num

/-- C3: segment handling.  When no surviving event at all has checkpoint
type MID, src/app.py line 145 (`df_results[MID]`) raises a pandas `KeyError`
instead of producing a result with absent segments, so the claim fails on
such inputs (first conjunct).  The remaining conjuncts show the true half:
with a MID column present, a MID outside (START, FINISH) leaves both
segments absent while the total is still produced, and a strictly interior
MID yields segment1 = MID - START and segment2 = FINISH - MID. -/
theorem calculate_net_time_mid_absent_raises :
    calculate_net_time [⟨"A", "START", some 0⟩, ⟨"A", "FINISH", some 100⟩] =
      Except.error "KeyError: MID" ∧
    calculate_net_time
        [⟨"A", "START", some 0⟩, ⟨"A", "MID", some 200⟩, ⟨"A", "FINISH", some 100⟩] =
      Except.ok [⟨"A", 0, some 200, 100, 100, none, none⟩] ∧
    calculate_net_time
        [⟨"A", "START", some 0⟩, ⟨"A", "MID", some 40⟩, ⟨"A", "FINISH", some 100⟩] =
      Except.ok [⟨"A", 0, some 40, 100, 100, some 40, some 60⟩] := by
  simp [calculate_net_time, droppedRecords, minTime, pivotAthletes, athleteRow,
    validMid, min_def, List.dedup, List.pwFilter, List.min?, List.filter]
  norm_num

/-- C9: totality on malformed input fails.  An empty event set does yield an
empty result set (first conjunct), and in successful runs events with an
unparseable timestamp are dropped and contribute nothing (third conjunct);
but the aggregator is not total on malformed input: on a nonempty event set
whose only timestamp fails to parse, every event is dropped, the pivot has
no START or FINISH column, and src/app.py line 137 raises a pandas
`KeyError` (second conjunct). -/
theorem calculate_net_time_malformed_handling :
    calculate_net_time [] = Except.ok [] ∧
    calculate_net_time [⟨"C", "FINISH", none⟩] =
      Except.error "KeyError: START or FINISH" ∧
    calculate_net_time
        [⟨"A", "START", some 0⟩, ⟨"A", "MID", some 40⟩, ⟨"A", "FINISH", some 100⟩,
         ⟨"B", "FINISH", none⟩] =
      calculate_net_time
        [⟨"A", "START", some 0⟩, ⟨"A", "MID", some 40⟩, ⟨"A", "FINISH", some 100⟩] := by
  simp [calculate_net_time, droppedRecords, minTime, pivotAthletes, athleteRow,
    validMid, min_def, List.dedup, List.pwFilter, List.min?, List.filter]

/-- C4: earliest-wins aggregation.  Every row of a successful aggregation
carries, for each checkpoint kind, exactly the minimum surviving timestamp
of its (participant, kind) pair, and consequently no surviving event of that
pair lies strictly below the recorded value: a duplicate that reached
storage can never shift an effective checkpoint time later. -/
theorem calculate_net_time_earliest_wins :
    ∀ (records : List TimingRecord) (results : List TimingResult) (r : TimingResult),
      calculate_net_time records = Except.ok results → r ∈ results →
      minTime (droppedRecords records) r.athlete_id "START" = some r.START ∧
      minTime (droppedRecords records) r.athlete_id "MID" = r.MID ∧
      minTime (droppedRecords records) r.athlete_id "FINISH" = some r.FINISH ∧
      ∀ p k t, (p, k, t) ∈ droppedRecords records → p = r.athlete_id →
        (k = "START" → r.START ≤ t) ∧ (k = "FINISH" → r.FINISH ≤ t) ∧
        (∀ m, r.MID = some m → k = "MID" → m ≤ t) := by
  intro records results r hok hr
  simp only [calculate_net_time] at hok
  split_ifs at hok with h0 h1 h2
  · injection hok with h
    subst h
    exact absurd hr (List.not_mem_nil r)
  · injection hok with h
    subst h
    obtain ⟨a, _, hrowa⟩ := List.mem_filterMap.1 hr
    cases hS : minTime (droppedRecords records) a "START" with
    | none => simp [athleteRow, hS] at hrowa
    | some s =>
      cases hF : minTime (droppedRecords records) a "FINISH" with
      | none => simp [athleteRow, hS, hF] at hrowa
      | some f =>
        simp only [athleteRow, hS, hF] at hrowa
        by_cases hlt : s < f
        · rw [if_pos hlt] at hrowa
          injection hrowa with h
          subst h
          refine ⟨hS, rfl, hF, ?_⟩
          intro p k t hmem hp
          subst hp
          refine ⟨fun hk => ?_, fun hk => ?_, fun m hm hk => ?_⟩
          · subst hk
            exact minTime_le hS hmem
          · subst hk
            exact minTime_le hF hmem
          · subst hk
            exact minTime_le hm hmem
        · rw [if_neg hlt] at hrowa
          exact absurd hrowa (by simp)

/-- Witness for C4 on concrete data: two START events for athlete 1001 at
times 10 and 5; the aggregation uses the earlier one, 5. -/
theorem calculate_net_time_earliest_wins_witness :
    minTime
      (droppedRecords
        [⟨"1001", "START", some 10⟩, ⟨"1001", "START", some 5⟩,
         ⟨"1001", "MID", some 20⟩, ⟨"1001", "FINISH", some 30⟩])
      "1001" "START" = some 5 :=
  (calculate_net_time_earliest_wins
    [⟨"1001", "START", some 10⟩, ⟨"1001", "START", some 5⟩,
     ⟨"1001", "MID", some 20⟩, ⟨"1001", "FINISH", some 30⟩]
    [⟨"1001", 5, some 20, 30, 25, some 15, some 10⟩]
    ⟨"1001", 5, some 20, 30, 25, some 15, some 10⟩
    (by simp +decide [calculate_net_time, droppedRecords, minTime, pivotAthletes,
        athleteRow, validMid, min_def, List.dedup, List.pwFilter, List.min?,
        List.filter, List.filterMap] <;> norm_num)
    (by simp)).1

/-- The ranking step of `display_results_ranking` (src/app.py line 382):
`sort_values(by := total_time_sec, ascending := True)` with the default
sort kind, quicksort.  The pandas contract for a non-stable kind guarantees
only that the output is a permutation of the input whose key column is
nondecreasing; the relative order of rows with equal keys is not specified.
The call is therefore embedded as the relation between the input and the
set of outputs the library is allowed to return. -/
def sort_values_total_asc (input output : List TimingResult) : Prop :=
  output.Perm input ∧
  output.Pairwise (fun a b => a.total_time_sec ≤ b.total_time_sec)

/-- The rank column of src/app.py line 383: after `reset_index(drop :=
True)`, the published rank of the row at position i is i + 1. -/
def rank_column (output : List TimingResult) : List (ℕ × TimingResult) :=
  output.enum.map (fun e => (e.1 + 1, e.2))

/-- C5 (amended): every output that the ranking step may publish is a
permutation of the computed results sorted by total elapsed time in
ascending order, and its rank column is exactly the consecutive integers
1, 2, ..., n; such an output always exists.  The tie-order part of the
original claim is refuted separately: the default sort kind of pandas is
not stable, so equal totals need not keep their input order. -/
theorem results_ranking_sorted_consecutive :
    (∀ (input output : List TimingResult), sort_values_total_asc input output →
      output.Pairwise (fun a b => a.total_time_sec ≤ b.total_time_sec) ∧
      output.Perm input ∧
      (rank_column output).map Prod.fst = List.range' 1 output.length ∧
      output.length = input.length) ∧
    (∀ input : List TimingResult, ∃ output, sort_values_total_asc input output) := by
  constructor
  · intro input output hrel
    obtain ⟨hperm, hsort⟩ := hrel
    refine ⟨hsort, hperm, ?_, hperm.length_eq⟩
    rw [rank_column, List.map_map]
    have hcomp : (Prod.fst ∘ fun e : ℕ × TimingResult => (e.1 + 1, e.2)) =
        (fun i => i + 1) ∘ Prod.fst := rfl
    rw [hcomp, ← List.map_map, List.enum_map_fst, List.range'_eq_map_range]
    simp [Nat.add_comm]
  · intro input
    refine ⟨List.insertionSort (fun a b => a.total_time_sec ≤ b.total_time_sec) input,
      List.perm_insertionSort _ _, ?_⟩
    haveI : IsTotal TimingResult (fun a b => a.total_time_sec ≤ b.total_time_sec) :=
      ⟨fun _ _ => le_total _ _⟩
    haveI : IsTrans TimingResult (fun a b => a.total_time_sec ≤ b.total_time_sec) :=
      ⟨fun _ _ _ => le_trans⟩
    exact List.sorted_insertionSort _ _

/-- A computed result row with total 100 for participant A, used to exhibit
the tie-break behaviour of the ranking step. -/
def rowA : TimingResult := ⟨"A", 0, none, 100, 100, none, none⟩

/-- A computed result row with the same total 100 for participant B. -/
def rowB : TimingResult := ⟨"B", 0, none, 100, 100, none, none⟩

/-- C5 (counterexample to the stated claim): on the concrete input
[rowA, rowB], two distinct rows with equal totals, the sort contract of
src/app.py line 382 admits the output [rowB, rowA], which does not keep the
relative input order of the tied rows; so the published ranking is not
guaranteed to be input-order stable on ties. -/
theorem results_ranking_not_stable_cex :
    ¬ (∀ output : List TimingResult,
        sort_values_total_asc [rowA, rowB] output → output = [rowA, rowB]) := by
  intro h
  have hswap : sort_values_total_asc [rowA, rowB] [rowB, rowA] := by
    constructor
    · decide
    · decide
  exact absurd (h [rowB, rowA] hswap) (by decide)

/-- Witness for C5 on concrete data: the identity output on [rowA, rowB]
satisfies the sort contract and its rank column is [1, 2]. -/
theorem results_ranking_sorted_consecutive_witness :
    (rank_column [rowA, rowB]).map Prod.fst = List.range' 1 2 :=
  ((results_ranking_sorted_consecutive.1 [rowA, rowB] [rowA, rowB])
    ⟨by decide, by decide⟩).2.2.1

/-- The closed checkpoint enumeration of the specification data model. -/
inductive CheckpointKind where
  | START : CheckpointKind
  | MID : CheckpointKind
  | FINISH : CheckpointKind
deriving DecidableEq, Repr

/-- Verification failures of the token codec, per the error taxonomy of the
specification. -/
inductive TokenError where
  | Expired : TokenError
  | InvalidSignature : TokenError
deriving DecidableEq, Repr

/-- Modelled from the spec: the repository sources under src/ contain no
token codec, so the TimingToken of the specification data model is built
from its words: an opaque credential carrying the checkpoint kind and the
issuance time, signed with a server-held secret key mixed with a purpose
label.  The signature is idealised as the signed tuple itself, an injective
MAC. -/
structure TimingToken where
  checkpoint_kind : CheckpointKind
  issued_at : ℚ
  sig : String × String × CheckpointKind × ℚ
deriving DecidableEq, Repr

/-- Modelled from the spec: the signing operation of the Token Codec, a pure
function of the secret key, the purpose label and the payload. -/
def signPayload (secret purpose : String) (k : CheckpointKind) (issued_at : ℚ) :
    String × String × CheckpointKind × ℚ :=
  (secret, purpose, k, issued_at)

/-- Modelled from the spec: `issue(checkpoint_kind, issued_at,
expiry_seconds)` serializes the payload and signs it with the secret key and
the purpose label; the expiry window is not embedded in the token, it is
re-supplied to `verify` as max_age_seconds. -/
def issue (secret purpose : String) (k : CheckpointKind)
    (issued_at expiry_seconds : ℚ) : TimingToken :=
  { checkpoint_kind := k, issued_at := issued_at,
    sig := signPayload secret purpose k issued_at }

/-- Modelled from the spec: `verify(token, purpose, max_age_seconds, now)`
fails with Expired if now minus issued_at exceeds max_age_seconds, fails
with InvalidSignature if the signature does not match the payload under the
given purpose, and otherwise returns the embedded checkpoint kind. -/
def verify (secret : String) (token : TimingToken) (purpose : String)
    (max_age_seconds now : ℚ) : Except TokenError CheckpointKind :=
  if now - token.issued_at > max_age_seconds then Except.error TokenError.Expired
  else if token.sig ≠ signPayload secret purpose token.checkpoint_kind token.issued_at then
    Except.error TokenError.InvalidSignature
  else Except.ok token.checkpoint_kind

/-- C6: token round-trip and expiry.  For every checkpoint kind k and expiry
window E, verifying a token issued at `now` with the matching purpose and
secret at time now + d returns k whenever 0 ≤ d ≤ E, and fails with the
Expired error whenever d > E. -/
theorem token_round_trip_expiry :
    ∀ (secret purpose : String) (k : CheckpointKind) (E now d : ℚ), 0 ≤ d →
      (d ≤ E →
        verify secret (issue secret purpose k now E) purpose E (now + d) =
          Except.ok k) ∧
      (E < d →
        verify secret (issue secret purpose k now E) purpose E (now + d) =
          Except.error TokenError.Expired) := by
  intro secret purpose k E now d _
  have harith : now + d - now = d := by ring
  constructor
  · intro hle
    have hnot : ¬(now + d - now > E) := by rw [harith]; exact not_lt.mpr hle
    simp [verify, issue, signPayload, if_neg hnot]
    exact hle
  · intro hgt
    have hyes : now + d - now > E := by rw [harith]; exact hgt
    simp only [verify, issue, if_pos hyes]

/-- Witness for C6 on concrete data: a token for the FINISH checkpoint
issued at time 1000 with a 90 second window verifies at offset 30 and is
expired at offset 91. -/
theorem token_round_trip_expiry_witness :
    verify "key" (issue "key" "checkpoint-timing" CheckpointKind.FINISH 1000 90)
        "checkpoint-timing" 90 (1000 + 30) = Except.ok CheckpointKind.FINISH ∧
    verify "key" (issue "key" "checkpoint-timing" CheckpointKind.FINISH 1000 90)
        "checkpoint-timing" 90 (1000 + 91) = Except.error TokenError.Expired :=
  ⟨(token_round_trip_expiry "key" "checkpoint-timing" CheckpointKind.FINISH
      90 1000 30 (by decide)).1 (by decide),
   (token_round_trip_expiry "key" "checkpoint-timing" CheckpointKind.FINISH
      90 1000 91 (by decide)).2 (by decide)⟩

/-- Round a rational to the nearest integer with ties to even: the rounding
applied to the third decimal by the Python fixed-point format specifier
06.3f in `format_time` (src/app.py line 160), lifted to the milliseconds
value. -/
def roundHalfEven (q : ℚ) : ℤ :=
  if q - ⌊q⌋ < 1 / 2 then ⌊q⌋
  else if 1 / 2 < q - ⌊q⌋ then ⌊q⌋ + 1
  else if Even ⌊q⌋ then ⌊q⌋ else ⌊q⌋ + 1

/-- Left zero-padding to a minimum width: the 0 flag of the Python format
mini-language (a longer string is returned unchanged). -/
def padLeftZeros (s : String) (w : Nat) : String :=
  String.mk (List.replicate (w - s.length) '0') ++ s

/-- `format_time` of src/app.py lines 154-160.  A missing value (None or
NaN, line 156) is embedded as `none`; a negative value also renders the
sentinel.  Otherwise minutes = int(seconds // 60) rendered with the
specifier 02d, and the remainder seconds % 60 rendered with 06.3f: its
value rounded to milliseconds, printed with exactly three fraction digits
and zero-padded to a total width of six. -/
def format_time : Option ℚ → String
  | none => "N/A"
  | some seconds =>
    if seconds < 0 then "N/A"
    else
      let minutes : ℤ := ⌊seconds / 60⌋
      let remaining : ℚ := seconds - 60 * minutes
      let ms : ℤ := roundHalfEven (1000 * remaining)
      padLeftZeros (toString minutes) 2 ++ ":" ++
        padLeftZeros
          (toString (ms / 1000) ++ "." ++ padLeftZeros (toString (ms % 1000)) 3) 6

/-- The rendering stated by the specification, written from its words: the
elapsed seconds as MM:SS.mmm with the minutes zero-padded to width 2 and
the seconds zero-padded with 3 decimal digits (the integer part of the
seconds zero-padded to width 2, then the 3 rounded fraction digits). -/
def format_time_spec (d : ℚ) : String :=
  let mm : ℤ := ⌊d / 60⌋
  let rest : ℚ := d - 60 * mm
  let ms : ℤ := roundHalfEven (1000 * rest)
  padLeftZeros (toString mm) 2 ++ ":" ++
    padLeftZeros (toString (ms / 1000)) 2 ++ "." ++
      padLeftZeros (toString (ms % 1000)) 3

/-- Numeric value of a digit string, most significant digit first. -/
def digitsVal (cs : List Char) : ℕ :=
  cs.foldl (fun acc c => 10 * acc + (c.toNat - 48)) 0

/-- A parsed float64 cell as `pd.to_numeric(errors := coerce)` produces it,
after the `.dropna()` of src/app.py line 212 has removed the NaN entries:
either a finite value or one of the two infinities.  A cell that fails to
parse, or parses to NaN, is `none` in this model (dropped either way). -/
inductive PyNum where
  | negInf : PyNum
  | finite (q : ℚ) : PyNum
  | posInf : PyNum
deriving DecidableEq, Repr

/-- Negation of a parsed float, for a leading minus sign. -/
def PyNum.neg : PyNum → PyNum
  | PyNum.negInf => PyNum.posInf
  | PyNum.finite q => PyNum.finite (-q)
  | PyNum.posInf => PyNum.negInf

/-- The float64 comparison on non-NaN values: -inf below every finite value
below +inf, finite values ordered as rationals. -/
def PyNum.le : PyNum → PyNum → Bool
  | PyNum.negInf, _ => true
  | _, PyNum.posInf => true
  | PyNum.finite a, PyNum.finite b => decide (a ≤ b)
  | _, _ => false

/-- The binary maximum underlying `.max()` on a float64 series whose NaN
entries are already dropped. -/
def pymax (a b : PyNum) : PyNum :=
  if PyNum.le a b then b else a

instance : Max PyNum := ⟨pymax⟩

/-- The exponent of a scientific-notation literal: an optional sign
followed by a nonempty run of digits. -/
def parseExponentPart (cs : List Char) : Option ℤ :=
  match cs with
  | '+' :: ds =>
    if ds ≠ [] ∧ ds.all Char.isDigit = true then some ((digitsVal ds : ℕ) : ℤ)
    else none
  | '-' :: ds =>
    if ds ≠ [] ∧ ds.all Char.isDigit = true then some (-((digitsVal ds : ℕ) : ℤ))
    else none
  | ds =>
    if ds ≠ [] ∧ ds.all Char.isDigit = true then some ((digitsVal ds : ℕ) : ℤ)
    else none

/-- An unsigned decimal mantissa as the pandas string-to-double parser
accepts it: a run of digits with an optional point (`5`, `5.`, `5.25`,
`.25`), at least one digit overall. -/
def parseMantissa (cs : List Char) : Option ℚ :=
  let ip := cs.takeWhile Char.isDigit
  let rest := cs.dropWhile Char.isDigit
  match rest with
  | [] => if ip = [] then none else some ((digitsVal ip : ℕ) : ℚ)
  | '.' :: fp =>
    if fp.all Char.isDigit = true ∧ (ip ≠ [] ∨ fp ≠ []) then
      some (((digitsVal ip : ℕ) : ℚ) +
        ((digitsVal fp : ℕ) : ℚ) / ((10 : ℚ) ^ fp.length))
    else none
  | _ => none

/-- An unsigned numeric literal as the pandas string-to-double parser
accepts it: a decimal mantissa optionally followed by e or E and a signed
exponent (`2e3`, `1.5E-2`). -/
def parseUnsignedNumeric (cs : List Char) : Option ℚ :=
  let mant := cs.takeWhile (fun c => !(c == 'e' || c == 'E'))
  let rest := cs.dropWhile (fun c => !(c == 'e' || c == 'E'))
  match rest with
  | [] => parseMantissa mant
  | _ :: expPart =>
    match parseMantissa mant, parseExponentPart expPart with
    | some m, some e => some (m * (10 : ℚ) ^ e)
    | _, _ => none

/-- An unsigned cell after the sign has been stripped: the pandas float
parser is tried first, and on failure the case-insensitive special word
`inf` is accepted as infinity (the word `nan` and everything else become
NaN, dropped by the caller, hence `none` here). -/
def parseSignedNumeric (cs : List Char) : Option PyNum :=
  match parseUnsignedNumeric cs with
  | some q => some (PyNum.finite q)
  | none =>
    if cs.map Char.toLower = ['i', 'n', 'f'] then some PyNum.posInf else none

/-- Model of `pd.to_numeric(..., errors := coerce)` (src/app.py line 212) on
one athlete_id cell: an optional `+` or `-` sign followed by a decimal or
scientific float literal or the word `inf`; a cell that parses to NaN or
does not parse at all is `none` (coerced to NaN, then dropped by the
`.dropna()` call). -/
def parseNumeric (s : String) : Option PyNum :=
  match s.data with
  | [] => none
  | c :: cs =>
    if c = '+' then parseSignedNumeric cs
    else if c = '-' then (parseSignedNumeric cs).map PyNum.neg
    else parseSignedNumeric (c :: cs)

/-- Truncation toward zero: the Python int() conversion applied to the
float maximum in src/app.py line 213. -/
def pyInt (q : ℚ) : ℤ :=
  if 0 ≤ q then ⌊q⌋ else ⌈q⌉

/-- The id generation of `display_registration_form` (src/app.py lines
208-215): 1001 for an empty athletes table; otherwise parse the athlete_id
column with `pd.to_numeric(errors := coerce)`, drop the failures, and use
int(max) + 1, falling back to 1001 when no id is numeric.  When the maximum
is one of the infinities (an athlete_id cell such as `inf`), the int()
conversion of line 213 raises OverflowError, embedded as `Except.error`. -/
def registration_new_id (df_athletes : List Athlete) : Except String ℤ :=
  if df_athletes = [] then Except.ok 1001
  else
    match (df_athletes.filterMap (fun a => parseNumeric a.athlete_id)).max? with
    | none => Except.ok 1001
    | some (PyNum.finite m) => Except.ok (pyInt m + 1)
    | some PyNum.posInf =>
      Except.error "OverflowError: cannot convert float infinity to integer"
    | some PyNum.negInf =>
      Except.error "OverflowError: cannot convert float infinity to integer"

/-- One submission of the registration form along its accepted path
(src/app.py lines 208-232): when the id generation succeeds the new athlete
is appended with the id rendered by str(), username := name and password :=
phone (lines 217-229); when it raises OverflowError the request dies before
the concat and save of lines 231-232, leaving the table unchanged. -/
def register_athlete (df : List Athlete)
    (department name gender phone : String) : List Athlete :=
  match registration_new_id df with
  | Except.ok n =>
    df ++ [{ athlete_id := toString n,
             department := department, name := name, gender := gender,
             phone := phone, username := name, password := phone }]
  | Except.error _ => df

/-- k successive registration submissions starting from a table, with
arbitrary form inputs (department, name, gender, phone) at each step. -/
def register_iter (df : List Athlete)
    (info : ℕ → String × String × String × String) : ℕ → List Athlete
  | 0 => df
  | k + 1 =>
    register_athlete (register_iter df info k)
      (info k).1 (info k).2.1 (info k).2.2.1 (info k).2.2.2

/-- The outcome of the id generation at the (k+1)-th registration in a run
of successive registrations: the assigned id, or the OverflowError. -/
def assigned_id (df : List Athlete)
    (info : ℕ → String × String × String × String) (k : ℕ) : Except String ℤ :=
  registration_new_id (register_iter df info k)

theorem digitChar_facts :
    ∀ d : ℕ, d < 10 →
      (Nat.digitChar d).isDigit = true ∧ (Nat.digitChar d).toNat - 48 = d := by
  decide

theorem toDigitsCore_acc (b : ℕ) :
    ∀ (fuel n : ℕ) (ds : List Char),
      Nat.toDigitsCore b fuel n ds = Nat.toDigitsCore b fuel n [] ++ ds := by
  intro fuel
  induction fuel with
  | zero => intro n ds; simp [Nat.toDigitsCore]
  | succ f ih =>
    intro n ds
    simp only [Nat.toDigitsCore]
    by_cases h : n / b = 0
    · simp [h]
    · rw [if_neg h, if_neg h, ih (n / b) (Nat.digitChar (n % b) :: ds),
        ih (n / b) [Nat.digitChar (n % b)]]
      simp

theorem toDigitsCore_fuel :
    ∀ (n fuel fuel' : ℕ), n < fuel → n < fuel' →
      Nat.toDigitsCore 10 fuel n [] = Nat.toDigitsCore 10 fuel' n [] := by
  intro n
  induction n using Nat.strong_induction_on with
  | _ n ih =>
    intro fuel fuel' hf hf'
    obtain ⟨f, rfl⟩ : ∃ f, fuel = f + 1 := ⟨fuel - 1, by omega⟩
    obtain ⟨g, rfl⟩ : ∃ g, fuel' = g + 1 := ⟨fuel' - 1, by omega⟩
    simp only [Nat.toDigitsCore]
    by_cases h : n / 10 = 0
    · simp [h]
    · rw [if_neg h, if_neg h, toDigitsCore_acc 10 f, toDigitsCore_acc 10 g]
      have hdivlt : n / 10 < n := Nat.div_lt_self (by omega) (by omega)
      rw [ih (n / 10) hdivlt f g (by omega) (by omega)]

theorem toDigits_base (n : ℕ) (h : n / 10 = 0) :
    Nat.toDigits 10 n = [Nat.digitChar (n % 10)] := by
  simp only [Nat.toDigits, Nat.toDigitsCore]
  rw [if_pos h]

theorem toDigits_step (n : ℕ) (h : ¬ n / 10 = 0) :
    Nat.toDigits 10 n = Nat.toDigits 10 (n / 10) ++ [Nat.digitChar (n % 10)] := by
  have hdivlt : n / 10 < n := Nat.div_lt_self (by omega) (by omega)
  have hstep : Nat.toDigitsCore 10 (n + 1) n [] =
      Nat.toDigitsCore 10 n (n / 10) [Nat.digitChar (n % 10)] := by
    simp only [Nat.toDigitsCore]
    rw [if_neg h]
  calc Nat.toDigits 10 n = Nat.toDigitsCore 10 (n + 1) n [] := rfl
    _ = Nat.toDigitsCore 10 n (n / 10) [Nat.digitChar (n % 10)] := hstep
    _ = Nat.toDigitsCore 10 n (n / 10) [] ++ [Nat.digitChar (n % 10)] :=
        toDigitsCore_acc 10 n (n / 10) _
    _ = Nat.toDigitsCore 10 (n / 10 + 1) (n / 10) [] ++ [Nat.digitChar (n % 10)] := by
        rw [toDigitsCore_fuel (n / 10) n (n / 10 + 1) hdivlt (by omega)]
    _ = Nat.toDigits 10 (n / 10) ++ [Nat.digitChar (n % 10)] := rfl

theorem digitsVal_append_singleton (cs : List Char) (c : Char) :
    digitsVal (cs ++ [c]) = 10 * digitsVal cs + (c.toNat - 48) := by
  simp [digitsVal, List.foldl_append]

theorem toDigits_spec :
    ∀ n : ℕ,
      digitsVal (Nat.toDigits 10 n) = n ∧ Nat.toDigits 10 n ≠ [] ∧
        ∀ c ∈ Nat.toDigits 10 n, c.isDigit = true := by
  intro n
  induction n using Nat.strong_induction_on with
  | _ n ih =>
    have hmod := digitChar_facts (n % 10) (Nat.mod_lt _ (by omega))
    by_cases h : n / 10 = 0
    · rw [toDigits_base n h]
      refine ⟨?_, by simp, ?_⟩
      · have hval : digitsVal [Nat.digitChar (n % 10)] =
            (Nat.digitChar (n % 10)).toNat - 48 := by
          simp [digitsVal]
        rw [hval, hmod.2]
        omega
      · intro c hc
        simp only [List.mem_singleton] at hc
        subst hc
        exact hmod.1
    · rw [toDigits_step n h]
      have hdivlt : n / 10 < n := Nat.div_lt_self (by omega) (by omega)
      obtain ⟨hval, _, hdig⟩ := ih (n / 10) hdivlt
      refine ⟨?_, by simp, ?_⟩
      · rw [digitsVal_append_singleton, hval, hmod.2]
        omega
      · intro c hc
        rcases List.mem_append.1 hc with h1 | h2
        · exact hdig c h1
        · simp only [List.mem_singleton] at h2
          subst h2
          exact hmod.1

theorem toDigits_length_le :
    ∀ (n k : ℕ), 1 ≤ k → n < 10 ^ k → (Nat.toDigits 10 n).length ≤ k := by
  intro n
  induction n using Nat.strong_induction_on with
  | _ n ih =>
    intro k hk hlt
    by_cases h : n / 10 = 0
    · rw [toDigits_base n h]
      simpa using hk
    · obtain ⟨k0, rfl⟩ : ∃ k0, k = k0 + 1 := ⟨k - 1, by omega⟩
      have hdivlt : n / 10 < n := Nat.div_lt_self (by omega) (by omega)
      have hdivbound : n / 10 < 10 ^ k0 := by
        have h10 : 0 < (10 : ℕ) := by omega
        rw [Nat.div_lt_iff_lt_mul h10]
        calc n < 10 ^ (k0 + 1) := hlt
          _ = 10 ^ k0 * 10 := by rw [pow_succ]
      have hk0 : 1 ≤ k0 := by
        by_contra hcon
        have hk00 : k0 = 0 := by omega
        subst hk00
        simp at hdivbound
        omega
      rw [toDigits_step n h, List.length_append]
      have := ih (n / 10) hdivlt k0 hk0 hdivbound
      simp only [List.length_singleton]
      omega

theorem data_append (a b : String) : (a ++ b).data = a.data ++ b.data := rfl

theorem mk_data (l : List Char) : (String.mk l).data = l := rfl

theorem str_length_append (a b : String) : (a ++ b).length = a.length + b.length := by
  show (a ++ b).data.length = a.data.length + b.data.length
  rw [data_append, List.length_append]

theorem toString_int_nonneg (i : ℤ) (h : 0 ≤ i) : toString i = Nat.repr i.toNat := by
  cases i with
  | ofNat m => rfl
  | negSucc m => exact absurd h (Int.not_le.mpr (Int.negSucc_lt_zero m))

theorem int_toString_length_le_three (i : ℤ) (h0 : 0 ≤ i) (h : i < 1000) :
    (toString i).length ≤ 3 := by
  rw [toString_int_nonneg i h0]
  show (Nat.toDigits 10 i.toNat).length ≤ 3
  have h1000 : i.toNat < 10 ^ 3 := by
    have hlt : i.toNat < 1000 := by omega
    calc i.toNat < 1000 := hlt
      _ = 10 ^ 3 := by norm_num
  exact toDigits_length_le i.toNat 3 (by omega) h1000

theorem padLeftZeros_length {s : String} {w : Nat} (h : s.length ≤ w) :
    (padLeftZeros s w).length = w := by
  show (padLeftZeros s w).data.length = w
  simp only [padLeftZeros, data_append, mk_data, List.length_append,
    List.length_replicate]
  show w - s.data.length + s.data.length = w
  have hsl : s.length = s.data.length := rfl
  omega

theorem padLeftZeros_append_frac (w f : String) (hf : f.length = 3) :
    padLeftZeros (w ++ "." ++ f) 6 = padLeftZeros w 2 ++ "." ++ f := by
  have hcount : 6 - (w ++ "." ++ f).length = 2 - w.length := by
    rw [str_length_append, str_length_append, hf]
    have hdot : ("." : String).length = 1 := rfl
    omega
  apply String.ext
  simp only [padLeftZeros, hcount, data_append, mk_data]
  simp [List.append_assoc]

/-- Evaluation helper for `format_time` on a nonnegative input whose floor
of minutes and rounded milliseconds are given. -/
theorem format_time_eval (d : ℚ) (m ms : ℤ) (hd : ¬ d < 0)
    (hm : ⌊d / 60⌋ = m) (hms : roundHalfEven (1000 * (d - 60 * (m : ℚ))) = ms) :
    format_time (some d) =
      padLeftZeros (toString m) 2 ++ ":" ++
        padLeftZeros
          (toString (ms / 1000) ++ "." ++ padLeftZeros (toString (ms % 1000)) 3) 6 := by
  simp only [format_time, if_neg hd, hm, hms]

/-- C7: time formatting.  On every nonnegative duration the rendering of
src/app.py lines 154-160 agrees with the MM:SS.mmm layout stated by the
specification (minutes zero-padded to width 2, seconds as a zero-padded
two-digit integer part with exactly three rounded decimal digits); every
missing or negative duration renders the sentinel, which is neither zero
nor blank; 1800 seconds renders as 30:00.000 and 423.5 seconds as
07:03.500. -/
theorem format_time_spec_conformance :
    (∀ d : ℚ, 0 ≤ d → format_time (some d) = format_time_spec d) ∧
    (∀ d : ℚ, d < 0 → format_time (some d) = "N/A") ∧
    format_time none = "N/A" ∧
    format_time (some 1800) = "30:00.000" ∧
    format_time (some (847 / 2)) = "07:03.500" ∧
    "N/A" ≠ "" ∧ "N/A" ≠ "0" ∧ "N/A" ≠ "00:00.000" := by
  refine ⟨?_, ?_, rfl, ?_, ?_, by decide, by decide, by decide⟩
  · intro d hd
    have hneg : ¬ d < 0 := not_lt.mpr hd
    simp only [format_time, format_time_spec, if_neg hneg]
    have hfl :
        (padLeftZeros
          (toString (roundHalfEven (1000 * (d - 60 * (⌊d / 60⌋ : ℤ))) % 1000)) 3).length
          = 3 :=
      padLeftZeros_length
        (int_toString_length_le_three _ (Int.emod_nonneg _ (by norm_num))
          (Int.emod_lt_of_pos _ (by norm_num)))
    rw [padLeftZeros_append_frac _ _ hfl]
    simp [String.append_assoc]
  · intro d hd
    simp only [format_time, if_pos hd]
  · rw [format_time_eval 1800 30 0 (by norm_num) (by norm_num)
      (by norm_num [roundHalfEven])]
    decide
  · rw [format_time_eval (847 / 2) 7 3500 (by norm_num)
      (by norm_num [Int.floor_eq_iff]) (by norm_num [roundHalfEven])]
    decide

/-- Witness for C7 on concrete data: the source rendering and the
specification rendering agree at 423.5 seconds. -/
theorem format_time_spec_conformance_witness :
    format_time (some (847 / 2)) = format_time_spec (847 / 2) :=
  format_time_spec_conformance.1 (847 / 2) (by norm_num)

theorem pynum_le_posInf_right (a : PyNum) : PyNum.le a PyNum.posInf = true := by
  cases a <;> rfl

theorem pynum_le_negInf_left (b : PyNum) : PyNum.le PyNum.negInf b = true := by
  cases b <;> rfl

theorem pynum_le_posInf_negInf : PyNum.le PyNum.posInf PyNum.negInf = false := rfl

theorem pynum_le_posInf_finite (q : ℚ) :
    PyNum.le PyNum.posInf (PyNum.finite q) = false := rfl

theorem pynum_le_finite_negInf (q : ℚ) :
    PyNum.le (PyNum.finite q) PyNum.negInf = false := rfl

theorem pynum_le_finite_finite (a b : ℚ) :
    PyNum.le (PyNum.finite a) (PyNum.finite b) = decide (a ≤ b) := rfl

theorem pynum_le_refl (a : PyNum) : PyNum.le a a = true := by
  cases a with
  | negInf => rfl
  | posInf => rfl
  | finite q => simp [pynum_le_finite_finite]

theorem pynum_le_total (a b : PyNum) :
    PyNum.le a b = true ∨ PyNum.le b a = true := by
  cases a with
  | negInf => left; exact pynum_le_negInf_left b
  | posInf => right; exact pynum_le_posInf_right b
  | finite a0 =>
    cases b with
    | negInf => right; exact pynum_le_negInf_left _
    | posInf => left; rfl
    | finite b0 =>
      rcases le_total a0 b0 with h | h
      · left; simp [pynum_le_finite_finite, h]
      · right; simp [pynum_le_finite_finite, h]

theorem pynum_le_trans {a b c : PyNum} (h1 : PyNum.le a b = true)
    (h2 : PyNum.le b c = true) : PyNum.le a c = true := by
  cases a with
  | negInf => exact pynum_le_negInf_left c
  | posInf =>
    cases b with
    | negInf => exact absurd (pynum_le_posInf_negInf ▸ h1) (by decide)
    | finite q => exact absurd (pynum_le_posInf_finite q ▸ h1) (by decide)
    | posInf => exact h2
  | finite a0 =>
    cases c with
    | posInf => exact pynum_le_posInf_right _
    | negInf =>
      cases b with
      | negInf => exact absurd (pynum_le_finite_negInf a0 ▸ h1) (by decide)
      | posInf => exact absurd (pynum_le_posInf_negInf ▸ h2) (by decide)
      | finite b0 => exact absurd (pynum_le_finite_negInf b0 ▸ h2) (by decide)
    | finite c0 =>
      cases b with
      | negInf => exact absurd (pynum_le_finite_negInf a0 ▸ h1) (by decide)
      | posInf => exact absurd (pynum_le_posInf_finite c0 ▸ h2) (by decide)
      | finite b0 =>
        rw [pynum_le_finite_finite] at h1 h2 ⊢
        exact decide_eq_true (le_trans (of_decide_eq_true h1) (of_decide_eq_true h2))

theorem pynum_le_max_left (a b : PyNum) : PyNum.le a (pymax a b) = true := by
  unfold pymax
  by_cases h : PyNum.le a b = true
  · rw [if_pos h]
    exact h
  · rw [if_neg h]
    exact pynum_le_refl a

theorem pynum_le_max_right (a b : PyNum) : PyNum.le b (pymax a b) = true := by
  unfold pymax
  by_cases h : PyNum.le a b = true
  · rw [if_pos h]
    exact pynum_le_refl b
  · rw [if_neg h]
    rcases pynum_le_total a b with h1 | h2
    · exact absurd h1 h
    · exact h2

theorem pymax_cases (a b : PyNum) : pymax a b = a ∨ pymax a b = b := by
  unfold pymax
  by_cases h : PyNum.le a b = true
  · rw [if_pos h]
    right
    rfl
  · rw [if_neg h]
    left
    rfl

theorem foldl_pymax_bounds (xs : List PyNum) :
    ∀ x : PyNum, PyNum.le x (xs.foldl pymax x) = true ∧
      ∀ y ∈ xs, PyNum.le y (xs.foldl pymax x) = true := by
  induction xs with
  | nil => exact fun x => ⟨pynum_le_refl x, by simp⟩
  | cons z zs ih =>
    intro x
    simp only [List.foldl_cons]
    obtain ⟨h1, h2⟩ := ih (pymax x z)
    refine ⟨pynum_le_trans (pynum_le_max_left x z) h1, ?_⟩
    intro y hy
    rcases List.mem_cons.1 hy with rfl | hmem
    · exact pynum_le_trans (pynum_le_max_right x y) h1
    · exact h2 y hmem

theorem foldl_pymax_mem (xs : List PyNum) :
    ∀ x : PyNum, xs.foldl pymax x = x ∨ xs.foldl pymax x ∈ xs := by
  induction xs with
  | nil => exact fun x => Or.inl rfl
  | cons z zs ih =>
    intro x
    simp only [List.foldl_cons]
    rcases ih (pymax x z) with h | h
    · rcases pymax_cases x z with hx | hz
      · left
        rw [h, hx]
      · right
        rw [h, hz]
        exact List.mem_cons_self z zs
    · right
      exact List.mem_cons_of_mem z h

theorem pynum_le_max?_of_mem {l : List PyNum} {m x : PyNum}
    (hm : l.max? = some m) (hx : x ∈ l) : PyNum.le x m = true := by
  cases l with
  | nil => exact absurd hx (List.not_mem_nil x)
  | cons a as =>
    have hm0 : as.foldl max a = m := by simpa [List.max?] using hm
    have hm1 : as.foldl pymax a = m := hm0
    rcases List.mem_cons.1 hx with rfl | hmem
    · rw [← hm1]
      exact (foldl_pymax_bounds as x).1
    · rw [← hm1]
      exact (foldl_pymax_bounds as a).2 x hmem

theorem pynum_max?_mem {l : List PyNum} {m : PyNum} (hm : l.max? = some m) :
    m ∈ l := by
  cases l with
  | nil => simp [List.max?] at hm
  | cons a as =>
    have hm0 : as.foldl max a = m := by simpa [List.max?] using hm
    have hm1 : as.foldl pymax a = m := hm0
    rcases foldl_pymax_mem as a with h | h
    · rw [← hm1, h]
      exact List.mem_cons_self a as
    · rw [← hm1]
      exact List.mem_cons_of_mem a h


theorem lt_pyInt_add_one (q : ℚ) : q < (pyInt q : ℚ) + 1 := by
  unfold pyInt
  split_ifs with h
  · exact Int.lt_floor_add_one q
  · calc q ≤ (⌈q⌉ : ℚ) := Int.le_ceil q
      _ < (⌈q⌉ : ℚ) + 1 := by linarith

theorem isDigit_ne_exp {c : Char} (h : c.isDigit = true) :
    (c == 'e' || c == 'E') = false := by
  cases hc : (c == 'e' || c == 'E') with
  | false => rfl
  | true =>
    simp only [Bool.or_eq_true, beq_iff_eq] at hc
    rcases hc with rfl | rfl
    · exact absurd h (by decide)
    · exact absurd h (by decide)

theorem parseUnsignedNumeric_digits {cs : List Char} (hne : cs ≠ [])
    (hdig : ∀ c ∈ cs, c.isDigit = true) :
    parseUnsignedNumeric cs = some ((digitsVal cs : ℕ) : ℚ) := by
  have hpred : ∀ c ∈ cs, (!(c == 'e' || c == 'E')) = true := by
    intro c hc
    rw [isDigit_ne_exp (hdig c hc)]
    rfl
  have htake1 : cs.takeWhile (fun c => !(c == 'e' || c == 'E')) = cs :=
    List.takeWhile_eq_self_iff.2 hpred
  have hdrop1 : cs.dropWhile (fun c => !(c == 'e' || c == 'E')) = [] :=
    List.dropWhile_eq_nil_iff.2 hpred
  have htake2 : cs.takeWhile Char.isDigit = cs := List.takeWhile_eq_self_iff.2 hdig
  have hdrop2 : cs.dropWhile Char.isDigit = [] := List.dropWhile_eq_nil_iff.2 hdig
  simp only [parseUnsignedNumeric, htake1, hdrop1, parseMantissa, htake2, hdrop2]
  rw [if_neg hne]

theorem parseSignedNumeric_digits {cs : List Char} (hne : cs ≠ [])
    (hdig : ∀ c ∈ cs, c.isDigit = true) :
    parseSignedNumeric cs = some (PyNum.finite ((digitsVal cs : ℕ) : ℚ)) := by
  simp only [parseSignedNumeric, parseUnsignedNumeric_digits hne hdig]

theorem parseNumeric_toString_int (n : ℤ) :
    parseNumeric (toString n) = some (PyNum.finite (n : ℚ)) := by
  cases n with
  | ofNat m =>
    have hts : toString (Int.ofNat m) = Nat.repr m := rfl
    rw [hts]
    obtain ⟨hval, hne, hdig⟩ := toDigits_spec m
    cases hd : Nat.toDigits 10 m with
    | nil => exact absurd hd hne
    | cons c cs =>
      have hdata : (Nat.repr m).data = c :: cs := by
        rw [show (Nat.repr m).data = Nat.toDigits 10 m from rfl, hd]
      have hcdig : c.isDigit = true := hdig c (by rw [hd]; exact List.mem_cons_self c cs)
      have hplus : ¬ c = '+' := by
        intro hc
        subst hc
        exact absurd hcdig (by decide)
      have hminus : ¬ c = '-' := by
        intro hc
        subst hc
        exact absurd hcdig (by decide)
      have hparse := parseSignedNumeric_digits hne hdig
      rw [hd] at hparse
      rw [hd] at hval
      simp only [parseNumeric, hdata]
      rw [if_neg hplus, if_neg hminus, hparse, hval]
      norm_cast
  | negSucc m =>
    obtain ⟨hval, hne, hdig⟩ := toDigits_spec (m + 1)
    have hred : parseNumeric (toString (Int.negSucc m)) =
        (parseSignedNumeric (Nat.toDigits 10 (m + 1))).map PyNum.neg := rfl
    rw [hred, parseSignedNumeric_digits hne hdig, hval]
    simp only [Option.map]
    simp [PyNum.neg, Int.cast_negSucc]

theorem registration_new_id_gt {df : List Athlete} {a : Athlete} {q : ℚ} {n : ℤ}
    (ha : a ∈ df) (hq : parseNumeric a.athlete_id = some (PyNum.finite q))
    (hok : registration_new_id df = Except.ok n) :
    q < (n : ℚ) := by
  have hdf : ¬ df = [] := by
    rintro rfl
    exact absurd ha (List.not_mem_nil a)
  have hmem : PyNum.finite q ∈ df.filterMap (fun x => parseNumeric x.athlete_id) :=
    List.mem_filterMap.2 ⟨a, ha, hq⟩
  unfold registration_new_id at hok
  rw [if_neg hdf] at hok
  cases hmax : (df.filterMap (fun x => parseNumeric x.athlete_id)).max? with
  | none =>
    rw [List.max?_eq_none_iff] at hmax
    rw [hmax] at hmem
    exact absurd hmem (List.not_mem_nil _)
  | some mx =>
    rw [hmax] at hok
    have hle := pynum_le_max?_of_mem hmax hmem
    cases mx with
    | negInf =>
      rw [pynum_le_finite_negInf] at hle
      exact absurd hle (by decide)
    | posInf =>
      have hbad :
          (Except.error "OverflowError: cannot convert float infinity to integer" :
            Except String ℤ) = Except.ok n := hok
      exact absurd hbad (by simp)
    | finite mq =>
      have hok2 : Except.ok (pyInt mq + 1) = Except.ok n := hok
      injection hok2 with hn
      have hqle : q ≤ mq := by
        rw [pynum_le_finite_finite] at hle
        exact of_decide_eq_true hle
      have hlt : q < (pyInt mq : ℚ) + 1 := lt_of_le_of_lt hqle (lt_pyInt_add_one mq)
      rw [← hn]
      push_cast
      exact hlt

theorem assigned_id_lt_succ {df : List Athlete}
    {info : ℕ → String × String × String × String} {k : ℕ} {n : ℤ}
    (hok : assigned_id df info k = Except.ok n) :
    ∃ m : ℤ, assigned_id df info (k + 1) = Except.ok m ∧ n < m := by
  have hok0 : registration_new_id (register_iter df info k) = Except.ok n := hok
  have htable : register_iter df info (k + 1) =
      register_iter df info k ++
        [{ athlete_id := toString n,
           department := (info k).1, name := (info k).2.1,
           gender := (info k).2.2.1, phone := (info k).2.2.2,
           username := (info k).2.1, password := (info k).2.2.2 }] := by
    show register_athlete (register_iter df info k)
        (info k).1 (info k).2.1 (info k).2.2.1 (info k).2.2.2 = _
    unfold register_athlete
    rw [hok0]
  have hparsed :
      (register_iter df info (k + 1)).filterMap (fun x => parseNumeric x.athlete_id) =
        (register_iter df info k).filterMap (fun x => parseNumeric x.athlete_id) ++
          [PyNum.finite (n : ℚ)] := by
    rw [htable, List.filterMap_append]
    simp [parseNumeric_toString_int]
  have hne2 : ¬ register_iter df info (k + 1) = [] := by
    rw [htable]
    simp
  show ∃ m : ℤ, registration_new_id (register_iter df info (k + 1)) =
    Except.ok m ∧ n < m
  unfold registration_new_id
  rw [if_neg hne2, hparsed]
  cases hmx : ((register_iter df info k).filterMap (fun x => parseNumeric x.athlete_id) ++
      [PyNum.finite (n : ℚ)]).max? with
  | none =>
    rw [List.max?_eq_none_iff] at hmx
    simp at hmx
  | some mx =>
    have hmemn : PyNum.finite (n : ℚ) ∈
        (register_iter df info k).filterMap (fun x => parseNumeric x.athlete_id) ++
          [PyNum.finite (n : ℚ)] := by simp
    have hlen := pynum_le_max?_of_mem hmx hmemn
    cases mx with
    | negInf =>
      rw [pynum_le_finite_negInf] at hlen
      exact absurd hlen (by decide)
    | posInf =>
      exfalso
      have hmxmem : PyNum.posInf ∈
          (register_iter df info k).filterMap (fun x => parseNumeric x.athlete_id) ++
            [PyNum.finite (n : ℚ)] := pynum_max?_mem hmx
      have hinP : PyNum.posInf ∈
          (register_iter df info k).filterMap (fun x => parseNumeric x.athlete_id) := by
        rcases List.mem_append.1 hmxmem with h | h
        · exact h
        · simp at h
      have hprevne : ¬ register_iter df info k = [] := by
        intro h0
        rw [h0] at hinP
        simp at hinP
      unfold registration_new_id at hok0
      rw [if_neg hprevne] at hok0
      cases hpm : ((register_iter df info k).filterMap
          (fun x => parseNumeric x.athlete_id)).max? with
      | none =>
        rw [List.max?_eq_none_iff] at hpm
        rw [hpm] at hinP
        exact absurd hinP (List.not_mem_nil _)
      | some pmx =>
        rw [hpm] at hok0
        have hlep := pynum_le_max?_of_mem hpm hinP
        cases pmx with
        | negInf =>
          rw [pynum_le_posInf_negInf] at hlep
          exact absurd hlep (by decide)
        | finite pq =>
          rw [pynum_le_posInf_finite] at hlep
          exact absurd hlep (by decide)
        | posInf =>
          have hbad :
              (Except.error
                "OverflowError: cannot convert float infinity to integer" :
                  Except String ℤ) = Except.ok n := hok0
          exact absurd hbad (by simp)
    | finite mq =>
      refine ⟨pyInt mq + 1, rfl, ?_⟩
      have hqle : (n : ℚ) ≤ mq := by
        rw [pynum_le_finite_finite] at hlen
        exact of_decide_eq_true hlen
      have hlt : (n : ℚ) < (pyInt mq : ℚ) + 1 :=
        lt_of_le_of_lt hqle (lt_pyInt_add_one mq)
      exact_mod_cast hlt

theorem assigned_id_ok_mono {df : List Athlete}
    {info : ℕ → String × String × String × String} :
    ∀ (i j : ℕ), i < j → ∀ ni : ℤ, assigned_id df info i = Except.ok ni →
      ∃ nj : ℤ, assigned_id df info j = Except.ok nj ∧ ni < nj := by
  intro i j
  induction j with
  | zero => omega
  | succ j ih =>
    intro hij ni hok
    rcases Nat.lt_succ_iff_lt_or_eq.1 hij with h | h
    · obtain ⟨nj, hoknj, hlt⟩ := ih h ni hok
      obtain ⟨nj1, hok1, hlt1⟩ := assigned_id_lt_succ hoknj
      exact ⟨nj1, hok1, lt_trans hlt hlt1⟩
    · rw [h] at hok
      exact assigned_id_lt_succ hok

